import Mathlib

/-!
Verification of the SkillsForge skill-loading pipeline (`skill_loader.py`,
`skill_tool.py`) against its natural-language specification.

Modelling conventions:
* Text is `List Char`; Python strings become char lists (`"...".data`).
* The filesystem is an abstract existence predicate `fsx : List Char → Bool`
  (the result of `Path.exists()` on a path rendered as a string); `Path(a) / b`
  is modelled as `a ++ "/" ++ b` (`pyJoin`), which agrees with `pathlib` for the
  non-empty, non-trailing-slash directories used throughout.
* `yaml.safe_load` is an external library; it is a parameter
  `yp : List Char → Except (List Char) Yaml` of the loader (an `Except.error`
  models a raised `yaml.YAMLError`, which the source catches).
* Python exceptions are modelled with `Except PyExc`; the `try/except` in
  `load_skill` maps every raised exception to `None`.
* The three `re.sub` passes of `_process_skill_paths` are embedded as explicit
  scanners implementing Python `re` semantics for those concrete patterns:
  leftmost match, alternatives tried left to right, greedy character-class
  runs (which for these patterns never need to backtrack, as the classes are
  disjoint from what follows them), scanning resuming after each match.
-/

deriving instance DecidableEq for Except

set_option maxRecDepth 16000

namespace SkillsForge

/-! ## YAML values (results of `yaml.safe_load` on the frontmatter) -/

inductive Yaml where
  | str (s : List Char)
  | int (n : Int)
  | bool (b : Bool)
  | null
  | list (xs : List Yaml)
  | map (kvs : List (List Char × Yaml))

mutual

def yamlEqb : Yaml → Yaml → Bool
  | .str a, .str b => a == b
  | .int a, .int b => a == b
  | .bool a, .bool b => a == b
  | .null, .null => true
  | .list xs, .list ys => yamlListEqb xs ys
  | .map xs, .map ys => yamlMapEqb xs ys
  | _, _ => false

def yamlListEqb : List Yaml → List Yaml → Bool
  | [], [] => true
  | x :: xs, y :: ys => yamlEqb x y && yamlListEqb xs ys
  | _, _ => false

def yamlMapEqb : List (List Char × Yaml) → List (List Char × Yaml) → Bool
  | [], [] => true
  | (k, v) :: xs, (k2, v2) :: ys => k == k2 && yamlEqb v v2 && yamlMapEqb xs ys
  | _, _ => false

end

mutual

theorem yamlEqb_eq : ∀ a b : Yaml, yamlEqb a b = true ↔ a = b
  | .str a, .str b => by simp [yamlEqb]
  | .int a, .int b => by simp [yamlEqb]
  | .bool a, .bool b => by simp [yamlEqb]
  | .null, .null => by simp [yamlEqb]
  | .list xs, .list ys => by simp [yamlEqb, yamlListEqb_eq xs ys]
  | .map xs, .map ys => by simp [yamlEqb, yamlMapEqb_eq xs ys]
  | .str _, .int _ => by simp [yamlEqb]
  | .str _, .bool _ => by simp [yamlEqb]
  | .str _, .null => by simp [yamlEqb]
  | .str _, .list _ => by simp [yamlEqb]
  | .str _, .map _ => by simp [yamlEqb]
  | .int _, .str _ => by simp [yamlEqb]
  | .int _, .bool _ => by simp [yamlEqb]
  | .int _, .null => by simp [yamlEqb]
  | .int _, .list _ => by simp [yamlEqb]
  | .int _, .map _ => by simp [yamlEqb]
  | .bool _, .str _ => by simp [yamlEqb]
  | .bool _, .int _ => by simp [yamlEqb]
  | .bool _, .null => by simp [yamlEqb]
  | .bool _, .list _ => by simp [yamlEqb]
  | .bool _, .map _ => by simp [yamlEqb]
  | .null, .str _ => by simp [yamlEqb]
  | .null, .int _ => by simp [yamlEqb]
  | .null, .bool _ => by simp [yamlEqb]
  | .null, .list _ => by simp [yamlEqb]
  | .null, .map _ => by simp [yamlEqb]
  | .list _, .str _ => by simp [yamlEqb]
  | .list _, .int _ => by simp [yamlEqb]
  | .list _, .bool _ => by simp [yamlEqb]
  | .list _, .null => by simp [yamlEqb]
  | .list _, .map _ => by simp [yamlEqb]
  | .map _, .str _ => by simp [yamlEqb]
  | .map _, .int _ => by simp [yamlEqb]
  | .map _, .bool _ => by simp [yamlEqb]
  | .map _, .null => by simp [yamlEqb]
  | .map _, .list _ => by simp [yamlEqb]

theorem yamlListEqb_eq : ∀ xs ys : List Yaml, yamlListEqb xs ys = true ↔ xs = ys
  | [], [] => by simp [yamlListEqb]
  | x :: xs, y :: ys => by
      simp [yamlListEqb, yamlEqb_eq x y, yamlListEqb_eq xs ys]
  | [], _ :: _ => by simp [yamlListEqb]
  | _ :: _, [] => by simp [yamlListEqb]

theorem yamlMapEqb_eq : ∀ xs ys : List (List Char × Yaml), yamlMapEqb xs ys = true ↔ xs = ys
  | [], [] => by simp [yamlMapEqb]
  | (k, v) :: xs, (k2, v2) :: ys => by
      simp [yamlMapEqb, yamlEqb_eq v v2, yamlMapEqb_eq xs ys, Prod.ext_iff, and_assoc]
  | [], _ :: _ => by simp [yamlMapEqb]
  | _ :: _, [] => by simp [yamlMapEqb]

end

instance : DecidableEq Yaml := fun a b => decidable_of_iff _ (yamlEqb_eq a b)

/-! ## Character classes used by the three patterns -/

/-- Python `\s` (ASCII part, which is all the source documents use). -/
def isPySpace (c : Char) : Bool :=
  c == ' ' || c == '\t' || c == '\n' || c == '\x0b' || c == '\x0c' || c == '\r'

/-- The class `[a-zA-Z0-9_-]` of pattern 2. -/
def isWordChar (c : Char) : Bool :=
  c.isAlpha || c.isDigit || c == '_' || c == '-'

/-- The class `[.,;\s]` terminating a pattern-2 match. -/
def isDocEnd (c : Char) : Bool :=
  c == '.' || c == ',' || c == ';' || isPySpace c

/-- The class `[^\s`\x29]` of pattern 1's relative-path tail. -/
def isP1TailChar (c : Char) : Bool :=
  !(isPySpace c || c == '`' || c == ')')

/-- The class `[^`\x5d]` of pattern 3's link text. -/
def isLinkTextChar (c : Char) : Bool :=
  !(c == '`' || c == ']')

/-- The class `[^\x29]` of pattern 3's path group. -/
def isPathChar (c : Char) : Bool :=
  !(c == ')')

/-! ## Generic matching primitives -/

/-- The first `p.length` characters of `s` match `p` pointwise under `eqc`. -/
def matchesBy (eqc : Char → Char → Bool) : List Char → List Char → Bool
  | [], _ => true
  | _ :: _, [] => false
  | p :: ps, c :: cs => eqc p c && matchesBy eqc ps cs

/-- Strip a literal pattern from the front of `s`, comparing characters with
`eqc`; returns the matched text (as it appears in `s`) and the rest. -/
def stripBy (eqc : Char → Char → Bool) (p s : List Char) : Option (List Char × List Char) :=
  if matchesBy eqc p s then some (s.take p.length, s.drop p.length) else none

/-- Case-sensitive literal match. -/
def exactStrip : List Char → List Char → Option (List Char × List Char) :=
  stripBy (fun a b => a == b)

/-- Case-insensitive literal match (`re.IGNORECASE`). -/
def ciStrip : List Char → List Char → Option (List Char × List Char) :=
  stripBy (fun a b => a.toLower == b.toLower)

/-- First alternative that matches, in order — regex alternation. -/
def firstSome (f : α → Option β) : List α → Option β
  | [] => none
  | x :: xs =>
    match f x with
    | some b => some b
    | none => firstSome f xs

/-- Test that `pat` is a case-insensitive suffix of `s`. -/
def ciEndsWith (pat s : List Char) : Bool :=
  (ciStrip pat.reverse s.reverse).isSome

/-- Consume one expected literal character. -/
def expectChar (c : Char) : List Char → Option (List Char)
  | [] => none
  | x :: r => if x = c then some r else none

/-- Consume one arbitrary character. -/
def uncons? : List Char → Option (Char × List Char)
  | [] => none
  | c :: r => some (c, r)

/-- Python `Path(skillDir) / rel` rendered as a string. -/
def pyJoin (skillDir rel : List Char) : List Char :=
  skillDir ++ '/' :: rel

/-! ## The Reference Rewriter (`SkillLoader._process_skill_paths`)

Each `tryMatchN fsx skillDir s` attempts pattern N at the start of `s` and
returns `some (g0, rep, rest)` — the matched text `match.group(0)`, the
replacement the source's replacement function produces, and the unconsumed
rest of `s` — or `none` when the pattern does not match at this position. -/

def pythonTok : List Char := "python".data

def dirWords : List (List Char) :=
  ["scripts".data, "examples".data, "templates".data, "reference".data]

/-- The function `replace_dir_path` from the source: rewrite `prefix + rel` to
`prefix + (skill_dir / rel)` when that path exists, else `match.group(0)`. -/
def replace_dir_path (fsx : List Char → Bool) (skillDir pre rel : List Char) : List Char :=
  let absPath := pyJoin skillDir rel
  if fsx absPath then pre ++ absPath else pre ++ rel

/-- One alternative of `(?:scripts|examples|templates|reference)/[^\s`\x29]+`
after the prefix has matched. -/
def tryDirWord (fsx : List Char → Bool) (skillDir pre w r : List Char) :
    Option (List Char × List Char × List Char) := do
  let wr ← exactStrip w r
  let r2 ← expectChar '/' wr.2
  let tail := r2.takeWhile isP1TailChar
  if tail = [] then none
  else
    let rel := wr.1 ++ '/' :: tail
    some (pre ++ rel, replace_dir_path fsx skillDir pre rel, r2.dropWhile isP1TailChar)

/-- The `python\s+` alternative of pattern 1's prefix group. -/
def tryMatch1Python (fsx : List Char → Bool) (skillDir s : List Char) :
    Option (List Char × List Char × List Char) := do
  let pr ← exactStrip pythonTok s
  let ws := pr.2.takeWhile isPySpace
  if ws = [] then none
  else firstSome (fun w => tryDirWord fsx skillDir (pr.1 ++ ws) w (pr.2.dropWhile isPySpace)) dirWords

/-- The backtick alternative of pattern 1's prefix group. -/
def tryMatch1Tick (fsx : List Char → Bool) (skillDir s : List Char) :
    Option (List Char × List Char × List Char) := do
  let r ← expectChar '`' s
  firstSome (fun w => tryDirWord fsx skillDir ['`'] w r) dirWords

/-- Pattern 1: `(python\s+|`)((?:scripts|examples|templates|reference)/[^\s`\x29]+)`. -/
def tryMatch1 (fsx : List Char → Bool) (skillDir s : List Char) :
    Option (List Char × List Char × List Char) :=
  match tryMatch1Python fsx skillDir s with
  | some res => some res
  | none => tryMatch1Tick fsx skillDir s

def docVerbs : List (List Char) :=
  ["see".data, "read".data, "refer to".data, "check".data]

def docExts : List (List Char) :=
  ["md".data, "txt".data, "json".data, "yaml".data]

/-- The function `replace_doc_path` from the source.  Note that `match.group(1)` is the bare
verb (the `\s+` is outside the group), so the rewritten text has no space
between the verb and the backtick — embedded faithfully. -/
def replace_doc_path (fsx : List Char → Bool) (skillDir g0 verb filename suffixT : List Char) :
    List Char :=
  if fsx (pyJoin skillDir filename) then
    verb ++ '`' :: (pyJoin skillDir filename ++ ("` (use read_file to access)".data ++ suffixT))
  else g0

/-- One extension alternative of pattern 2, after `<verb>\s+<fname>.` has
matched: the extension, then one terminating `[.,;\s]` character. -/
def tryDocExt (fsx : List Char → Bool) (skillDir vm ws fn e r3 : List Char) :
    Option (List Char × List Char × List Char) := do
  let er ← ciStrip e r3
  let cr ← uncons? er.2
  if isDocEnd cr.1 then
    let filename := fn ++ '.' :: er.1
    let g0 := vm ++ (ws ++ (filename ++ [cr.1]))
    some (g0, replace_doc_path fsx skillDir g0 vm filename [cr.1], cr.2)
  else none

/-- One verb alternative of pattern 2. -/
def tryDocVerb (fsx : List Char → Bool) (skillDir v s : List Char) :
    Option (List Char × List Char × List Char) := do
  let vr ← ciStrip v s
  let ws := vr.2.takeWhile isPySpace
  if ws = [] then none
  else
    let r2 := vr.2.dropWhile isPySpace
    let fn := r2.takeWhile isWordChar
    if fn = [] then none
    else do
      let r3 ← expectChar '.' (r2.dropWhile isWordChar)
      firstSome (fun e => tryDocExt fsx skillDir vr.1 ws fn e r3) docExts

/-- Pattern 2 (`re.IGNORECASE`):
`(see|read|refer to|check)\s+([a-zA-Z0-9_-]+\.(?:md|txt|json|yaml))([.,;\s])`. -/
def tryMatch2 (fsx : List Char → Bool) (skillDir s : List Char) :
    Option (List Char × List Char × List Char) :=
  firstSome (fun v => tryDocVerb fsx skillDir v s) docVerbs

def mdVerbs : List (List Char) :=
  ["Read".data, "See".data, "Check".data, "Refer to".data, "Load".data, "View".data]

def mdExts : List (List Char) :=
  ["md".data, "txt".data, "json".data, "yaml".data, "js".data, "py".data, "html".data]

/-- The path group `(?:\./)?[^\x29]+\.(?:md|txt|json|yaml|js|py|html)` must
consume the whole run `S` of non-`)` characters: `S` ends with `.ext` and has
at least one character before the dot. -/
def mdPathOk (S : List Char) : Bool :=
  mdExts.any (fun e => ciEndsWith ('.' :: e) S && decide (e.length + 2 ≤ S.length))

/-- The function `replace_markdown_link` from the source: strips a leading `./`, keeps the
lead verb (without its following whitespace — `match.group(1)`) and the link
text as written. -/
def replace_markdown_link (fsx : List Char → Bool) (skillDir g0 preVerb ltext fpath : List Char) :
    List Char :=
  let clean := if fpath.take 2 = ['.', '/'] then fpath.drop 2 else fpath
  let absPath := pyJoin skillDir clean
  if fsx absPath then
    preVerb ++ '[' :: (ltext ++ ("](`".data ++ (absPath ++ "`) (use read_file to access)".data)))
  else g0

/-- An optional backtick: consume a leading `` ` `` when present. -/
def optBacktick (s : List Char) : List Char × List Char :=
  match s with
  | [] => ([], [])
  | c :: r => if c = '`' then ([c], r) else ([], c :: r)

/-- The link-text group `` (`?[^`\x5d]+`?) `` followed by `]`. -/
def parseLinkText (s : List Char) : Option (List Char × List Char) :=
  let p := optBacktick s
  let run := p.2.takeWhile isLinkTextChar
  if run = [] then none
  else
    let q := optBacktick (p.2.dropWhile isLinkTextChar)
    (expectChar ']' q.2).map (fun r4 => (p.1 ++ (run ++ q.1), r4))

/-- The bracketed part `\[...\](...)` of pattern 3, with an already-matched
optional lead verb `preVerb` and its whitespace `wsT` (both empty when the
optional group is absent). -/
def tryBracket (fsx : List Char → Bool) (skillDir preVerb wsT s : List Char) :
    Option (List Char × List Char × List Char) := do
  let r1 ← expectChar '[' s
  let lr ← parseLinkText r1
  let r3 ← expectChar '(' lr.2
  let S := r3.takeWhile isPathChar
  let r5 ← expectChar ')' (r3.dropWhile isPathChar)
  if mdPathOk S then
    let g0 := preVerb ++ (wsT ++ '[' :: (lr.1 ++ (']' :: '(' :: (S ++ [')']))))
    some (g0, replace_markdown_link fsx skillDir g0 preVerb lr.1 S, r5)
  else none

/-- One lead-verb alternative of pattern 3. -/
def tryMdVerb (fsx : List Char → Bool) (skillDir v s : List Char) :
    Option (List Char × List Char × List Char) := do
  let vr ← ciStrip v s
  let ws := vr.2.takeWhile isPySpace
  if ws = [] then none
  else tryBracket fsx skillDir vr.1 ws (vr.2.dropWhile isPySpace)

/-- Pattern 3 (`re.IGNORECASE`): an optional lead verb
`(?:(Read|See|Check|Refer to|Load|View)\s+)?` followed by a markdown link. -/
def tryMatch3 (fsx : List Char → Bool) (skillDir s : List Char) :
    Option (List Char × List Char × List Char) :=
  match firstSome (fun v => tryMdVerb fsx skillDir v s) mdVerbs with
  | some res => some res
  | none => tryBracket fsx skillDir [] [] s

/-- Python `re.sub` with a replacement function: scan left to right, at each position
either emit the replacement and resume after the match, or pass the character
through.  `fuel = s.length` suffices because every match consumes at least one
character. -/
def subScanAux (f : List Char → Option (List Char × List Char × List Char)) :
    Nat → List Char → List Char
  | 0, s => s
  | _ + 1, [] => []
  | n + 1, c :: cs =>
    match f (c :: cs) with
    | some (_, rep, rest) => rep ++ subScanAux f n rest
    | none => c :: subScanAux f n cs

def pySub (f : List Char → Option (List Char × List Char × List Char)) (s : List Char) :
    List Char :=
  subScanAux f s.length s

/-- The method `SkillLoader._process_skill_paths`: the three substitution passes in
source order, each pass running on the previous pass's output. -/
def process_skill_paths (fsx : List Char → Bool) (skillDir content : List Char) : List Char :=
  pySub (tryMatch3 fsx skillDir)
    (pySub (tryMatch2 fsx skillDir)
      (pySub (tryMatch1 fsx skillDir) content))

/-! ## The Document Parser (`SkillLoader.load_skill`) -/

/-- The `Skill` dataclass. `name` and `description` are whatever YAML value the
frontmatter holds for those keys (the dataclass does not enforce types). -/
structure Skill where
  name : Yaml
  description : Yaml
  content : List Char
  license : Option Yaml := none
  allowed_tools : Option Yaml := none
  metadata : Option Yaml := none
  skill_path : Option (List Char) := none
  deriving DecidableEq

/-- Python exceptions that the modelled operations can raise. -/
inductive PyExc where
  | typeError
  | keyError
  | attributeError
  deriving DecidableEq

/-- The distinguishable outcomes of the body of `load_skill` (each non-`ok`
branch prints its own diagnostic and returns `None` in the source). -/
inductive LoadOutcome where
  | ok (s : Skill)
  | missingFrontmatter
  | yamlError (msg : List Char)
  | missingRequired
  deriving DecidableEq

def fmOpen : List Char := ['-', '-', '-', '\n']

def fmDelim : List Char := ['\n', '-', '-', '-', '\n']

/-- Find the first occurrence of `\n---\n` (the lazy `(.*?)` of the
frontmatter regex); returns the text before it and the text after it. -/
def findDelim : List Char → Option (List Char × List Char)
  | [] => none
  | c :: cs =>
    match exactStrip fmDelim (c :: cs) with
    | some mr => some ([], mr.2)
    | none => (findDelim cs).map (fun pr => (c :: pr.1, pr.2))

/-- The regex `re.match(r"^---\n(.*?)\n---\n(.*)$", content, re.DOTALL)`: the document
must begin with `---\n`; the frontmatter text runs to the first `\n---\n`;
the body is everything after it. -/
def frontmatterSplit (content : List Char) : Option (List Char × List Char) :=
  match exactStrip fmOpen content with
  | none => none
  | some mr => findDelim mr.2

/-- Python `str.strip()` (ASCII whitespace). -/
def pyStrip (s : List Char) : List Char :=
  ((s.dropWhile isPySpace).reverse.dropWhile isPySpace).reverse

/-- Python `pathlib.Path(p).parent` for the plain relative/absolute paths produced by
`rglob` (no trailing slash, no duplicated slashes). -/
def parentDir (p : List Char) : List Char :=
  match p.reverse.dropWhile (fun c => !(c == '/')) with
  | [] => ['.']
  | ['/'] => ['/']
  | _ :: rest => rest.reverse

/-- First-match lookup in a YAML mapping (YAML mappings have unique keys). -/
def mapLookup (kvs : List (List Char × Yaml)) (k : List Char) : Option Yaml :=
  match kvs with
  | [] => none
  | kv :: rest => if kv.1 = k then some kv.2 else mapLookup rest k

/-- Python `k in v` for a string key `k`: key lookup on a dict, substring test
on a string, membership on a list; `TypeError` on scalars/None. -/
def pyContains (k : List Char) : Yaml → Except PyExc Bool
  | .map kvs => .ok (mapLookup kvs k).isSome
  | .str s => .ok (decide (List.IsInfix k s))
  | .list xs => .ok (xs.any (fun v => decide (v = Yaml.str k)))
  | .int _ => .error .typeError
  | .bool _ => .error .typeError
  | .null => .error .typeError

/-- Python `v[k]` for a string key: dict lookup (`KeyError` when absent),
`TypeError` on anything else. -/
def pySubscript (k : List Char) : Yaml → Except PyExc Yaml
  | .map kvs =>
    match mapLookup kvs k with
    | some v => .ok v
    | none => .error .keyError
  | _ => .error .typeError

/-- Python `v.get(k)`: only dicts have `.get`; `AttributeError` otherwise. -/
def pyGet (k : List Char) : Yaml → Except PyExc (Option Yaml)
  | .map kvs => .ok (mapLookup kvs k)
  | _ => .error .attributeError

/-- The body of `SkillLoader.load_skill` — everything inside the outer `try`.
`yp` is the `yaml.safe_load` parameter; its `Except.error` models a raised
`yaml.YAMLError`, which the inner `try` turns into the `yamlError` outcome.
An `Except.error` of this function models an exception that the body raises
(and that only the outer catch-all stops). -/
def load_skill_body (fsx : List Char → Bool) (yp : List Char → Except (List Char) Yaml)
    (skillPath content : List Char) : Except PyExc LoadOutcome := do
  match frontmatterSplit content with
  | none => return .missingFrontmatter
  | some (fmText, rawBody) =>
    match yp fmText with
    | .error e => return .yamlError e
    | .ok fm =>
      let skillContent := pyStrip rawBody
      let hasName ← pyContains "name".data fm
      if !hasName then return .missingRequired
      else
        let hasDesc ← pyContains "description".data fm
        if !hasDesc then return .missingRequired
        else
          let skillDir := parentDir skillPath
          let processed := process_skill_paths fsx skillDir skillContent
          let nameV ← pySubscript "name".data fm
          let descV ← pySubscript "description".data fm
          let lic ← pyGet "license".data fm
          let tools ← pyGet "allowed-tools".data fm
          let mdata ← pyGet "metadata".data fm
          return .ok ⟨nameV, descV, processed, lic, tools, mdata, some skillPath⟩

/-- The method `SkillLoader.load_skill`: the outer `try/except Exception` maps every
raised exception — and every reported parse failure — to `None`. -/
def load_skill (fsx : List Char → Bool) (yp : List Char → Except (List Char) Yaml)
    (skillPath content : List Char) : Option Skill :=
  match load_skill_body fsx yp skillPath content with
  | .ok (.ok s) => some s
  | _ => none

/-! ## The Skill Catalog (`SkillLoader.discover_skills` / `get_skill` /
`list_skills`) -/

/-- The index `loaded_skills`: a Python dict in insertion order. -/
abbrev Dict := List (Yaml × Skill)

def dictGet (d : Dict) (k : Yaml) : Option Skill :=
  match d with
  | [] => none
  | kv :: rest => if kv.1 = k then some kv.2 else dictGet rest k

/-- Assignment `d[k] = v` on a Python dict: updating an existing key keeps its position;
a new key is appended. -/
def dictInsert (d : Dict) (k : Yaml) (v : Skill) : Dict :=
  match d with
  | [] => [(k, v)]
  | kv :: rest => if kv.1 = k then (kv.1, v) :: rest else kv :: dictInsert rest k v

def dictKeys (d : Dict) : List Yaml := d.map (fun kv => kv.1)

/-- Whether a YAML value is hashable (usable as a dict key): lists and dicts
are not, and `loaded_skills[skill.name] = skill` raises `TypeError` on them. -/
def pyHashable : Yaml → Bool
  | .list _ => false
  | .map _ => false
  | _ => true

/-- The `rglob` loop of `discover_skills`: each discovered document is a
`(path, text)` pair; parse failures are skipped, successes are appended to the
returned list and indexed by name (the dict assignment raises on an unhashable
name, aborting the pass — it is outside any `try`). -/
def discoverGo (fsx : List Char → Bool) (yp : List Char → Except (List Char) Yaml) :
    List (List Char × List Char) → List Skill → Dict → Except PyExc (List Skill × Dict)
  | [], acc, d => .ok (acc, d)
  | doc :: rest, acc, d =>
    match load_skill fsx yp doc.1 doc.2 with
    | none => discoverGo fsx yp rest acc d
    | some s =>
      if pyHashable s.name then discoverGo fsx yp rest (acc ++ [s]) (dictInsert d s.name s)
      else .error .typeError

/-- The method `SkillLoader.discover_skills` over the documents found under the root
(the loader starts with an empty `loaded_skills`). -/
def discover_skills (fsx : List Char → Bool) (yp : List Char → Except (List Char) Yaml)
    (docs : List (List Char × List Char)) : Except PyExc (List Skill × Dict) :=
  discoverGo fsx yp docs [] []

/-- The method `SkillLoader.get_skill`: `loaded_skills.get(name)` for a string `name`. -/
def get_skill (d : Dict) (name : List Char) : Option Skill :=
  dictGet d (.str name)

/-- The method `SkillLoader.list_skills`: `list(loaded_skills.keys())`. -/
def list_skills (d : Dict) : List Yaml := dictKeys d

/-! ## The Disclosure Facade (`get_skills_metadata_prompt`, `Skill.to_prompt`,
`GetSkillTool.execute`) -/

mutual

/-- Python `repr` (quote escaping inside strings is not modelled; the skills
pipeline never constructs strings containing quotes in repr position). -/
def pyRepr : Yaml → List Char
  | .str s => '\x27' :: (s ++ ['\x27'])
  | .int n => (toString n).data
  | .bool b => if b then "True".data else "False".data
  | .null => "None".data
  | .list xs => '[' :: (pyReprList xs ++ [']'])
  | .map kvs => '\x7b' :: (pyReprMap kvs ++ ['\x7d'])

def pyReprList : List Yaml → List Char
  | [] => []
  | [x] => pyRepr x
  | x :: y :: rest => pyRepr x ++ (", ".data ++ pyReprList (y :: rest))

def pyReprMap : List (List Char × Yaml) → List Char
  | [] => []
  | [(k, v)] => pyRepr (.str k) ++ (": ".data ++ pyRepr v)
  | (k, v) :: y :: rest => pyRepr (.str k) ++ (": ".data ++ (pyRepr v ++ (", ".data ++ pyReprMap (y :: rest))))

end

/-- Python `str()` as used by the f-strings. -/
def pyStr : Yaml → List Char
  | .str s => s
  | v => pyRepr v

/-- Python `sep.join(parts)`. -/
def joinSep (sep : List Char) : List (List Char) → List Char
  | [] => []
  | [x] => x
  | x :: y :: rest => x ++ (sep ++ joinSep sep (y :: rest))

def metaPromptHeader : List (List Char) :=
  ["## Available Skills\n".data,
   "You have access to specialized skills. Each skill provides expert guidance for specific tasks.\n".data,
   "Load a skill\x27s full content using the appropriate skill tool when needed.\n".data]

/-- The per-skill metadata line of the summary view. -/
def skillLine (s : Skill) : List Char :=
  "- `".data ++ (pyStr s.name ++ ("`: ".data ++ pyStr s.description))

/-- The method `SkillLoader.get_skills_metadata_prompt`: empty string on an empty
catalog, otherwise the three preamble parts plus one line per indexed skill,
joined with newlines. -/
def get_skills_metadata_prompt (d : Dict) : List Char :=
  if d = [] then []
  else joinSep ['\n'] (metaPromptHeader ++ d.map (fun kv => skillLine kv.2))

/-- The fixed instructional preamble of the summary view, as the join of the
three header parts renders it. -/
def metaPromptPreamble : List Char :=
  ("## Available Skills\n\nYou have access to specialized skills. Each skill provides expert guidance for specific tasks.\n\nLoad a skill\x27s full content using the appropriate skill tool when needed.\n\n").data

/-- Replace a skill's body (used to state that the summary view never reads
bodies). -/
def setContent (c : List Char) (s : Skill) : Skill :=
  { s with content := c }

/-- The method `Skill.to_prompt`. -/
def to_prompt (s : Skill) : List Char :=
  "\n# Skill: ".data ++ (pyStr s.name ++ ("\n\n".data ++ (pyStr s.description
    ++ ("\n\n---\n\n".data ++ (s.content ++ "\n".data)))))

/-- Modelled from the spec: `base.ToolResult` is not under src/ (only its
constructions in `skill_tool.py` are); the record carries the success flag,
the content, and the optional structured error message those constructions
supply. -/
structure ToolResult where
  success : Bool
  content : List Char
  error : Option (List Char) := none
  deriving DecidableEq

def strYaml? : Yaml → Option (List Char)
  | .str s => some s
  | _ => none

/-- The strings of a list of YAML values; `none` when any value is not a
string. -/
def mapStr? : List Yaml → Option (List (List Char))
  | [] => some []
  | y :: ys =>
    match strYaml? y, mapStr? ys with
    | some s, some ss => some (s :: ss)
    | _, _ => none

/-- Python `", ".join(names)`: `TypeError` when any element is not a string. -/
def pyJoinComma (ys : List Yaml) : Except PyExc (List Char) :=
  match mapStr? ys with
  | some ss => .ok (joinSep ", ".data ss)
  | none => .error .typeError

/-- The not-found message of `GetSkillTool.execute`. -/
def notFoundMsg (skillName available : List Char) : List Char :=
  "技能 \x27".data ++ (skillName ++ ("\x27 不存在。可用技能：".data ++ available))

/-- The method `GetSkillTool.execute`: look the name up; on a miss, return a failed
`ToolResult` whose error message embeds the joined list of indexed names;
on a hit, return the skill rendered by `to_prompt`. -/
def executeGetSkill (d : Dict) (skillName : List Char) : Except PyExc ToolResult :=
  match get_skill d skillName with
  | none =>
    match pyJoinComma (list_skills d) with
    | .error e => .error e
    | .ok av => .ok ⟨false, [], some (notFoundMsg skillName av)⟩
  | some s => .ok ⟨true, to_prompt s, none⟩

/-! ## Derived notions and concrete fixtures used by the claim theorems -/

/-- The never-exists filesystem: every `Path.exists()` check is `False`. -/
def noFs : List Char → Bool := fun _ => false

/-- The skill a sequence of `loaded_skills[skill.name] = skill` assignments
leaves under key `k`: the last one whose name equals `k`. -/
def findLast (skills : List Skill) (k : Yaml) : Option Skill :=
  match skills with
  | [] => none
  | s :: rest =>
    match findLast rest k with
    | some t => some t
    | none => if s.name = k then some s else none

/-- One step of Python-dict key bookkeeping: an existing key keeps its
position, a new key is appended. -/
def keyStep (acc : List Yaml) (k : Yaml) : List Yaml :=
  if k ∈ acc then acc else acc ++ [k]

/-- Key order after indexing a sequence of skills into an empty dict: each
distinct name once, at the position of its first occurrence. -/
def firstKeys (names : List Yaml) : List Yaml :=
  names.foldl keyStep []

/-- The successfully parsed skills of a discovery pass, in discovery order. -/
def parsedOf (fsx : List Char → Bool) (yp : List Char → Except (List Char) Yaml)
    (docs : List (List Char × List Char)) : List Skill :=
  docs.filterMap (fun doc => load_skill fsx yp doc.1 doc.2)

/-- The filesystem of the C3 counterexample: the skill directory is named
`see b.md x` and contains `a.md` and `b.md`. -/
def cexFs : List Char → Bool := fun p =>
  p == "see b.md x/a.md".data || p == "see b.md x/b.md".data

def cexDir : List Char := "see b.md x".data

def cexBody : List Char := "read a.md.".data

/-- No match of `f` anywhere in `t` is live: at every scan position of `t`
(`re.sub` attempts a match at each suffix), a successful match is replaced by
itself — `rep = g0` is what every replacement function of the source returns
whenever the match's resolved target path does not exist, so this says the
text contains no further pattern match with an existing target. -/
def NoRewrite (f : List Char → Option (List Char × List Char × List Char))
    (t : List Char) : Prop :=
  ∀ u g0 rep rest, List.IsSuffix u t → f u = some (g0, rep, rest) → rep = g0

/-- Decidable check of `NoRewrite` over the finitely many suffixes of `t`. -/
def noRewriteB (f : List Char → Option (List Char × List Char × List Char))
    (t : List Char) : Bool :=
  t.tails.all (fun u =>
    match f u with
    | some (g0, rep, _) => decide (rep = g0)
    | none => true)

/-- The C3-witness filesystem: skill directory `D` contains only `a.md`, so
the first pass rewrites `read a.md.` and the rewritten output has no further
live match. -/
def c3wFs : List Char → Bool := fun p => p == "D/a.md".data

def c3wDir : List Char := "D".data

def c3wBody : List Char := "read a.md.".data

/-- The yaml-parser behaviour of the C4 fixtures: frontmatter `A` and `B`
are two well-formed headers declaring the same name `x`. -/
def c4yp : List Char → Except (List Char) Yaml := fun s =>
  if s = "A".data then
    .ok (.map [("name".data, .str "x".data), ("description".data, .str "d1".data)])
  else if s = "B".data then
    .ok (.map [("name".data, .str "x".data), ("description".data, .str "d2".data)])
  else .error "bad".data

def c4docs : List (List Char × List Char) :=
  [("p1".data, "---\nA\n---\nb1".data), ("p2".data, "---\nB\n---\nb2".data)]

/-- The C4-witness fixtures: two well-formed documents with distinct names. -/
def c4wyp : List Char → Except (List Char) Yaml := fun s =>
  if s = "A".data then
    .ok (.map [("name".data, .str "x".data), ("description".data, .str "d1".data)])
  else if s = "B".data then
    .ok (.map [("name".data, .str "y".data), ("description".data, .str "d2".data)])
  else .error "bad".data

def c4wdocs : List (List Char × List Char) :=
  [("p1".data, "---\nA\n---\nb1".data), ("bad".data, "no header".data),
    ("p2".data, "---\nB\n---\nb2".data)]

/-- C5 fixtures: two documents declaring the same name `x`. -/
def c5yp : List Char → Except (List Char) Yaml := fun s =>
  if s = "A".data then
    .ok (.map [("name".data, .str "x".data), ("description".data, .str "d1".data)])
  else if s = "B".data then
    .ok (.map [("name".data, .str "x".data), ("description".data, .str "d2".data)])
  else .error "bad".data

def c5docs : List (List Char × List Char) :=
  [("p1".data, "---\nA\n---\nb1".data), ("p2".data, "---\nB\n---\nb2".data)]

/-- C10 fixtures: three documents with names `x`, `y`, `x`. -/
def c10yp : List Char → Except (List Char) Yaml := fun s =>
  if s = "A".data then
    .ok (.map [("name".data, .str "x".data), ("description".data, .str "d1".data)])
  else if s = "B".data then
    .ok (.map [("name".data, .str "y".data), ("description".data, .str "d2".data)])
  else if s = "C".data then
    .ok (.map [("name".data, .str "x".data), ("description".data, .str "d3".data)])
  else .error "bad".data

def c10docs : List (List Char × List Char) :=
  [("p1".data, "---\nA\n---\nc1".data), ("p2".data, "---\nB\n---\nc2".data),
    ("p3".data, "---\nC\n---\nc3".data)]

/-- C2 fixtures: a header whose `name` is the empty string. -/
def c2yp : List Char → Except (List Char) Yaml := fun _ =>
  .ok (.map [("name".data, .str []), ("description".data, .str "d".data)])

def c2doc : List Char := "---\nh\n---\nbody".data

/-- C2 fixtures for the amended witness: a header missing `description`. -/
def c2wyp : List Char → Except (List Char) Yaml := fun _ =>
  .ok (.map [("name".data, .str "x".data)])

/-- C7 fixtures: `yaml.safe_load` returning a non-container scalar makes
`"name" in frontmatter` raise `TypeError` — which the catch-all converts to
`None`. -/
def c7yp : List Char → Except (List Char) Yaml := fun _ => .ok (.int 3)

def c7doc : List Char := "---\nh\n---\nbody".data

/-- C8 fixture: a one-skill catalog. -/
def c8d : Dict :=
  [(.str "x".data, ⟨.str "x".data, .str "dx".data, "BODY".data, none, none, none, none⟩)]

/-- C9 fixture: a two-skill catalog. -/
def c9d : Dict :=
  [(.str "alpha".data, ⟨.str "alpha".data, .str "da".data, "ba".data, none, none, none, none⟩),
    (.str "beta".data, ⟨.str "beta".data, .str "db".data, "bb".data, none, none, none, none⟩)]

/-! ## Supporting lemmas: the scanners reproduce their input where no
existing-target replacement fires -/

theorem stripBy_append {eqc : Char → Char → Bool} {p s m r : List Char}
    (h : stripBy eqc p s = some (m, r)) : s = m ++ r := by
  unfold stripBy at h
  split at h
  · simp only [Option.some.injEq, Prod.mk.injEq] at h
    rw [← h.1, ← h.2, List.take_append_drop]
  · simp at h

theorem expectChar_append {c : Char} {s r : List Char}
    (h : expectChar c s = some r) : s = c :: r := by
  cases s with
  | nil => simp [expectChar] at h
  | cons x xs =>
    simp only [expectChar] at h
    split at h
    · cases h; subst_vars; rfl
    · simp at h

theorem uncons?_append {s : List Char} {cr : Char × List Char}
    (h : uncons? s = some cr) : s = cr.1 :: cr.2 := by
  cases s with
  | nil => simp [uncons?] at h
  | cons x xs =>
    simp only [uncons?, Option.some.injEq] at h
    rw [← h]

theorem firstSome_forall {α β : Type} (P : β → Prop) {f : α → Option β}
    (hf : ∀ x b, f x = some b → P b) :
    ∀ l b, firstSome f l = some b → P b := by
  intro l
  induction l with
  | nil => intro b h; simp [firstSome] at h
  | cons x xs ih =>
    intro b h
    simp only [firstSome] at h
    cases hx : f x with
    | some b2 => rw [hx] at h; cases h; exact hf x _ hx
    | none => rw [hx] at h; exact ih b h

theorem takeWhile_dropWhile_append (p : Char → Bool) (l : List Char) :
    l.takeWhile p ++ l.dropWhile p = l :=
  List.takeWhile_append_dropWhile ..

/-- Any pattern-1 match satisfies: the matched text plus the rest reassemble
the input (prefixed by the already-consumed `pre`), and the replacement is
what `replace_dir_path` yields for the matched relative path. -/
theorem tryDirWord_inv {fsx : List Char → Bool} {skillDir pre w r g0 rep rest : List Char}
    (h : tryDirWord fsx skillDir pre w r = some (g0, rep, rest)) :
    pre ++ r = g0 ++ rest ∧
      ∃ rel, g0 = pre ++ rel ∧ rep = replace_dir_path fsx skillDir pre rel := by
  simp only [tryDirWord, bind, Option.bind_eq_some] at h
  obtain ⟨wr, hw, h⟩ := h
  obtain ⟨r2, hc, h⟩ := h
  split at h
  · simp at h
  · simp only [Option.some.injEq, Prod.mk.injEq] at h
    obtain ⟨hg0, hrep, hrest⟩ := h
    have hr : r = wr.1 ++ wr.2 := stripBy_append hw
    have hc2 : wr.2 = '/' :: r2 := expectChar_append hc
    refine ⟨?_, wr.1 ++ '/' :: r2.takeWhile isP1TailChar, hg0.symm, hrep.symm⟩
    calc pre ++ r
        = pre ++ (wr.1 ++ ('/' :: (r2.takeWhile isP1TailChar ++ r2.dropWhile isP1TailChar))) := by
          rw [takeWhile_dropWhile_append, hr, hc2]
      _ = (pre ++ (wr.1 ++ '/' :: r2.takeWhile isP1TailChar)) ++ r2.dropWhile isP1TailChar := by
          simp [List.append_assoc]
      _ = g0 ++ rest := by rw [hg0, hrest]

theorem replace_dir_path_noFs (skillDir pre rel : List Char) :
    replace_dir_path noFs skillDir pre rel = pre ++ rel := rfl

theorem replace_doc_path_noFs (skillDir g0 verb filename suffixT : List Char) :
    replace_doc_path noFs skillDir g0 verb filename suffixT = g0 := rfl

theorem replace_markdown_link_noFs (skillDir g0 preVerb ltext fpath : List Char) :
    replace_markdown_link noFs skillDir g0 preVerb ltext fpath = g0 := rfl

theorem tryDirWord_noFs {skillDir pre w r g0 rep rest : List Char}
    (h : tryDirWord noFs skillDir pre w r = some (g0, rep, rest)) :
    pre ++ r = g0 ++ rest ∧ rep = g0 := by
  obtain ⟨he, rel, hrel, hrep⟩ := tryDirWord_inv h
  exact ⟨he, by rw [hrep, replace_dir_path_noFs, ← hrel]⟩

theorem tryMatch1Python_noFs {skillDir s g0 rep rest : List Char}
    (h : tryMatch1Python noFs skillDir s = some (g0, rep, rest)) :
    s = g0 ++ rest ∧ rep = g0 := by
  simp only [tryMatch1Python, bind, Option.bind_eq_some] at h
  obtain ⟨pr, hp, h⟩ := h
  split at h
  · simp at h
  · have hfs := firstSome_forall
      (fun t : List Char × List Char × List Char =>
        (pr.1 ++ pr.2.takeWhile isPySpace) ++ pr.2.dropWhile isPySpace = t.1 ++ t.2.2 ∧
          t.2.1 = t.1)
      (fun w t ht => tryDirWord_noFs ht)
      dirWords _ h
    obtain ⟨h1, h2⟩ := hfs
    refine ⟨?_, h2⟩
    rw [stripBy_append hp, ← h1, List.append_assoc, takeWhile_dropWhile_append]

theorem tryMatch1Tick_noFs {skillDir s g0 rep rest : List Char}
    (h : tryMatch1Tick noFs skillDir s = some (g0, rep, rest)) :
    s = g0 ++ rest ∧ rep = g0 := by
  simp only [tryMatch1Tick, bind, Option.bind_eq_some] at h
  obtain ⟨r, hb, h⟩ := h
  have hfs := firstSome_forall
    (fun t : List Char × List Char × List Char =>
      ['`'] ++ r = t.1 ++ t.2.2 ∧ t.2.1 = t.1)
    (fun w t ht => tryDirWord_noFs ht)
    dirWords _ h
  obtain ⟨h1, h2⟩ := hfs
  refine ⟨?_, h2⟩
  rw [expectChar_append hb, ← h1]
  rfl

theorem tryMatch1_noFs {skillDir s g0 rep rest : List Char}
    (h : tryMatch1 noFs skillDir s = some (g0, rep, rest)) :
    s = g0 ++ rest ∧ rep = g0 := by
  unfold tryMatch1 at h
  split at h
  case _ res halt =>
    cases h
    exact tryMatch1Python_noFs halt
  case _ halt =>
    exact tryMatch1Tick_noFs h

theorem tryDocExt_noFs {skillDir vm ws fn e r3 g0 rep rest : List Char}
    (h : tryDocExt noFs skillDir vm ws fn e r3 = some (g0, rep, rest)) :
    vm ++ (ws ++ (fn ++ '.' :: r3)) = g0 ++ rest ∧ rep = g0 := by
  simp only [tryDocExt, bind, Option.bind_eq_some] at h
  obtain ⟨er, he, h⟩ := h
  obtain ⟨cr, hc, h⟩ := h
  split at h
  · simp only [Option.some.injEq, Prod.mk.injEq] at h
    obtain ⟨hg0, hrep, hrest⟩ := h
    have h1 : r3 = er.1 ++ er.2 := stripBy_append he
    have h2 : er.2 = cr.1 :: cr.2 := uncons?_append hc
    constructor
    · rw [h1, h2, ← hg0, ← hrest]
      simp [List.append_assoc]
    · rw [← hrep, replace_doc_path_noFs, hg0]
  · simp at h

theorem tryDocVerb_noFs {skillDir v s g0 rep rest : List Char}
    (h : tryDocVerb noFs skillDir v s = some (g0, rep, rest)) :
    s = g0 ++ rest ∧ rep = g0 := by
  simp only [tryDocVerb, bind, Option.bind_eq_some] at h
  obtain ⟨vr, hv, h⟩ := h
  split at h
  · simp at h
  · split at h
    · simp at h
    · simp only [bind, Option.bind_eq_some] at h
      obtain ⟨r3, hdot, h⟩ := h
      have hfs := firstSome_forall
        (fun t : List Char × List Char × List Char =>
          vr.1 ++ (vr.2.takeWhile isPySpace ++
              ((vr.2.dropWhile isPySpace).takeWhile isWordChar ++ '.' :: r3)) = t.1 ++ t.2.2 ∧
            t.2.1 = t.1)
        (fun e t ht => tryDocExt_noFs ht)
        docExts _ h
      obtain ⟨h1, h2⟩ := hfs
      refine ⟨?_, h2⟩
      rw [stripBy_append hv, ← h1, ← expectChar_append hdot,
        takeWhile_dropWhile_append, takeWhile_dropWhile_append]

theorem tryMatch2_noFs {skillDir s g0 rep rest : List Char}
    (h : tryMatch2 noFs skillDir s = some (g0, rep, rest)) :
    s = g0 ++ rest ∧ rep = g0 :=
  firstSome_forall
    (fun t : List Char × List Char × List Char => s = t.1 ++ t.2.2 ∧ t.2.1 = t.1)
    (fun _ _ ht => tryDocVerb_noFs ht) docVerbs _ h

theorem optBacktick_append (s : List Char) : s = (optBacktick s).1 ++ (optBacktick s).2 := by
  cases s with
  | nil => rfl
  | cons c r =>
    simp only [optBacktick]
    split
    · subst_vars; rfl
    · rfl

theorem parseLinkText_append {s : List Char} {lr : List Char × List Char}
    (h : parseLinkText s = some lr) : s = lr.1 ++ ']' :: lr.2 := by
  simp only [parseLinkText] at h
  split at h
  · simp at h
  · simp only [Option.map_eq_some'] at h
    obtain ⟨r4', hexp, heq⟩ := h
    have e1 := optBacktick_append s
    have e2 := takeWhile_dropWhile_append isLinkTextChar (optBacktick s).2
    have e3 := optBacktick_append ((optBacktick s).2.dropWhile isLinkTextChar)
    have e4 := expectChar_append hexp
    rw [← heq]
    calc s = (optBacktick s).1 ++ (optBacktick s).2 := e1
      _ = (optBacktick s).1 ++
            ((optBacktick s).2.takeWhile isLinkTextChar ++
              (optBacktick s).2.dropWhile isLinkTextChar) := by rw [e2]
      _ = (optBacktick s).1 ++
            ((optBacktick s).2.takeWhile isLinkTextChar ++
              ((optBacktick ((optBacktick s).2.dropWhile isLinkTextChar)).1 ++
                (optBacktick ((optBacktick s).2.dropWhile isLinkTextChar)).2)) := by rw [← e3]
      _ = (optBacktick s).1 ++
            ((optBacktick s).2.takeWhile isLinkTextChar ++
              ((optBacktick ((optBacktick s).2.dropWhile isLinkTextChar)).1 ++ (']' :: r4'))) := by
            rw [← e4]
      _ = ((optBacktick s).1 ++
            ((optBacktick s).2.takeWhile isLinkTextChar ++
              (optBacktick ((optBacktick s).2.dropWhile isLinkTextChar)).1)) ++ (']' :: r4') := by
            simp [List.append_assoc]

theorem tryBracket_noFs {skillDir preVerb wsT s g0 rep rest : List Char}
    (h : tryBracket noFs skillDir preVerb wsT s = some (g0, rep, rest)) :
    preVerb ++ (wsT ++ s) = g0 ++ rest ∧ rep = g0 := by
  simp only [tryBracket, bind, Option.bind_eq_some] at h
  obtain ⟨r1, hob, h⟩ := h
  obtain ⟨lr, hlt, h⟩ := h
  obtain ⟨r3, hop, h⟩ := h
  obtain ⟨r5, hcp, h⟩ := h
  split at h
  · simp only [Option.some.injEq, Prod.mk.injEq] at h
    obtain ⟨hg0, hrep, hrest⟩ := h
    have e1 : s = '[' :: r1 := expectChar_append hob
    have e2 : r1 = lr.1 ++ ']' :: lr.2 := parseLinkText_append hlt
    have e3 : lr.2 = '(' :: r3 := expectChar_append hop
    have e4 : r3.dropWhile isPathChar = ')' :: r5 := expectChar_append hcp
    constructor
    · calc preVerb ++ (wsT ++ s)
          = preVerb ++ (wsT ++ ('[' :: (lr.1 ++ (']' :: '(' :: r3)))) := by
            rw [e1, e2, e3]
        _ = preVerb ++ (wsT ++ ('[' :: (lr.1 ++
              (']' :: '(' :: (r3.takeWhile isPathChar ++ (')' :: r5)))))) := by
            rw [← e4, takeWhile_dropWhile_append]
        _ = (preVerb ++ (wsT ++ ('[' :: (lr.1 ++
              (']' :: '(' :: (r3.takeWhile isPathChar ++ [')'])))))) ++ r5 := by
            simp [List.append_assoc]
        _ = g0 ++ rest := by rw [hg0, hrest]
    · rw [← hrep, replace_markdown_link_noFs, hg0]
  · simp at h

theorem tryMdVerb_noFs {skillDir v s g0 rep rest : List Char}
    (h : tryMdVerb noFs skillDir v s = some (g0, rep, rest)) :
    s = g0 ++ rest ∧ rep = g0 := by
  simp only [tryMdVerb, bind, Option.bind_eq_some] at h
  obtain ⟨vr, hv, h⟩ := h
  split at h
  · simp at h
  · obtain ⟨h1, h2⟩ := tryBracket_noFs h
    refine ⟨?_, h2⟩
    rw [stripBy_append hv, ← h1, takeWhile_dropWhile_append]

theorem tryMatch3_noFs {skillDir s g0 rep rest : List Char}
    (h : tryMatch3 noFs skillDir s = some (g0, rep, rest)) :
    s = g0 ++ rest ∧ rep = g0 := by
  unfold tryMatch3 at h
  split at h
  case _ res hfs =>
    cases h
    exact firstSome_forall
      (fun t : List Char × List Char × List Char => s = t.1 ++ t.2.2 ∧ t.2.1 = t.1)
      (fun v t ht => tryMdVerb_noFs ht) mdVerbs _ hfs
  case _ hfs =>
    obtain ⟨h1, h2⟩ := tryBracket_noFs h
    exact ⟨h1, h2⟩

/-- A scanner whose every match replaces itself verbatim reproduces its
input. -/
theorem subScanAux_id {f : List Char → Option (List Char × List Char × List Char)}
    (hf : ∀ s g0 rep rest, f s = some (g0, rep, rest) → s = g0 ++ rest ∧ rep = g0) :
    ∀ fuel s, subScanAux f fuel s = s := by
  intro fuel
  induction fuel with
  | zero => intro s; rfl
  | succ n ih =>
    intro s
    cases s with
    | nil => rfl
    | cons c cs =>
      simp only [subScanAux]
      cases hm : f (c :: cs) with
      | none => dsimp only; rw [ih]
      | some t =>
        obtain ⟨g0, rep, rest⟩ := t
        obtain ⟨he, hr⟩ := hf _ _ _ _ hm
        dsimp only
        rw [hr, ih, ← he]

theorem pySub_id {f : List Char → Option (List Char × List Char × List Char)}
    (hf : ∀ s g0 rep rest, f s = some (g0, rep, rest) → s = g0 ++ rest ∧ rep = g0)
    (s : List Char) : pySub f s = s :=
  subScanAux_id hf s.length s

/-- With no existing targets, every pass — and hence the whole Rewriter — is
the identity. -/
theorem process_skill_paths_noFs (skillDir content : List Char) :
    process_skill_paths noFs skillDir content = content := by
  unfold process_skill_paths
  rw [pySub_id (fun s g0 rep rest h => tryMatch1_noFs h),
    pySub_id (fun s g0 rep rest h => tryMatch2_noFs h),
    pySub_id (fun s g0 rep rest h => tryMatch3_noFs h)]

/-! ## Supporting lemmas: any match consumes exactly its matched text
(arbitrary filesystem) -/

theorem tryMatch1Python_consumes {fsx : List Char → Bool} {skillDir s g0 rep rest : List Char}
    (h : tryMatch1Python fsx skillDir s = some (g0, rep, rest)) : s = g0 ++ rest := by
  simp only [tryMatch1Python, bind, Option.bind_eq_some] at h
  obtain ⟨pr, hp, h⟩ := h
  split at h
  · simp at h
  · have hfs := firstSome_forall
      (fun t : List Char × List Char × List Char =>
        (pr.1 ++ pr.2.takeWhile isPySpace) ++ pr.2.dropWhile isPySpace = t.1 ++ t.2.2)
      (fun _ _ ht => (tryDirWord_inv ht).1)
      dirWords _ h
    rw [stripBy_append hp, ← hfs, List.append_assoc, takeWhile_dropWhile_append]

theorem tryMatch1Tick_consumes {fsx : List Char → Bool} {skillDir s g0 rep rest : List Char}
    (h : tryMatch1Tick fsx skillDir s = some (g0, rep, rest)) : s = g0 ++ rest := by
  simp only [tryMatch1Tick, bind, Option.bind_eq_some] at h
  obtain ⟨r, hb, h⟩ := h
  have hfs := firstSome_forall
    (fun t : List Char × List Char × List Char => ['`'] ++ r = t.1 ++ t.2.2)
    (fun _ _ ht => (tryDirWord_inv ht).1)
    dirWords _ h
  rw [expectChar_append hb, ← hfs]
  rfl

theorem tryMatch1_consumes {fsx : List Char → Bool} {skillDir s g0 rep rest : List Char}
    (h : tryMatch1 fsx skillDir s = some (g0, rep, rest)) : s = g0 ++ rest := by
  unfold tryMatch1 at h
  split at h
  case _ res halt =>
    cases h
    exact tryMatch1Python_consumes halt
  case _ halt =>
    exact tryMatch1Tick_consumes h

theorem tryDocExt_consumes {fsx : List Char → Bool} {skillDir vm ws fn e r3 g0 rep rest : List Char}
    (h : tryDocExt fsx skillDir vm ws fn e r3 = some (g0, rep, rest)) :
    vm ++ (ws ++ (fn ++ '.' :: r3)) = g0 ++ rest := by
  simp only [tryDocExt, bind, Option.bind_eq_some] at h
  obtain ⟨er, he, h⟩ := h
  obtain ⟨cr, hc, h⟩ := h
  split at h
  · simp only [Option.some.injEq, Prod.mk.injEq] at h
    obtain ⟨hg0, hrep, hrest⟩ := h
    rw [stripBy_append he, uncons?_append hc, ← hg0, ← hrest]
    simp [List.append_assoc]
  · simp at h

theorem tryDocVerb_consumes {fsx : List Char → Bool} {skillDir v s g0 rep rest : List Char}
    (h : tryDocVerb fsx skillDir v s = some (g0, rep, rest)) : s = g0 ++ rest := by
  simp only [tryDocVerb, bind, Option.bind_eq_some] at h
  obtain ⟨vr, hv, h⟩ := h
  split at h
  · simp at h
  · split at h
    · simp at h
    · simp only [bind, Option.bind_eq_some] at h
      obtain ⟨r3, hdot, h⟩ := h
      have hfs := firstSome_forall
        (fun t : List Char × List Char × List Char =>
          vr.1 ++ (vr.2.takeWhile isPySpace ++
              ((vr.2.dropWhile isPySpace).takeWhile isWordChar ++ '.' :: r3)) = t.1 ++ t.2.2)
        (fun _ _ ht => tryDocExt_consumes ht)
        docExts _ h
      rw [stripBy_append hv, ← hfs, ← expectChar_append hdot,
        takeWhile_dropWhile_append, takeWhile_dropWhile_append]

theorem tryMatch2_consumes {fsx : List Char → Bool} {skillDir s g0 rep rest : List Char}
    (h : tryMatch2 fsx skillDir s = some (g0, rep, rest)) : s = g0 ++ rest :=
  firstSome_forall
    (fun t : List Char × List Char × List Char => s = t.1 ++ t.2.2)
    (fun _ _ ht => tryDocVerb_consumes ht) docVerbs _ h

theorem tryBracket_consumes {fsx : List Char → Bool} {skillDir preVerb wsT s g0 rep rest : List Char}
    (h : tryBracket fsx skillDir preVerb wsT s = some (g0, rep, rest)) :
    preVerb ++ (wsT ++ s) = g0 ++ rest := by
  simp only [tryBracket, bind, Option.bind_eq_some] at h
  obtain ⟨r1, hob, h⟩ := h
  obtain ⟨lr, hlt, h⟩ := h
  obtain ⟨r3, hop, h⟩ := h
  obtain ⟨r5, hcp, h⟩ := h
  split at h
  · simp only [Option.some.injEq, Prod.mk.injEq] at h
    obtain ⟨hg0, hrep, hrest⟩ := h
    have e1 : s = '[' :: r1 := expectChar_append hob
    have e2 : r1 = lr.1 ++ ']' :: lr.2 := parseLinkText_append hlt
    have e3 : lr.2 = '(' :: r3 := expectChar_append hop
    have e4 : r3.dropWhile isPathChar = ')' :: r5 := expectChar_append hcp
    calc preVerb ++ (wsT ++ s)
        = preVerb ++ (wsT ++ ('[' :: (lr.1 ++ (']' :: '(' :: r3)))) := by
          rw [e1, e2, e3]
      _ = preVerb ++ (wsT ++ ('[' :: (lr.1 ++
            (']' :: '(' :: (r3.takeWhile isPathChar ++ (')' :: r5)))))) := by
          rw [← e4, takeWhile_dropWhile_append]
      _ = (preVerb ++ (wsT ++ ('[' :: (lr.1 ++
            (']' :: '(' :: (r3.takeWhile isPathChar ++ [')'])))))) ++ r5 := by
          simp [List.append_assoc]
      _ = g0 ++ rest := by rw [hg0, hrest]
  · simp at h

theorem tryMdVerb_consumes {fsx : List Char → Bool} {skillDir v s g0 rep rest : List Char}
    (h : tryMdVerb fsx skillDir v s = some (g0, rep, rest)) : s = g0 ++ rest := by
  simp only [tryMdVerb, bind, Option.bind_eq_some] at h
  obtain ⟨vr, hv, h⟩ := h
  split at h
  · simp at h
  · have h1 := tryBracket_consumes h
    rw [stripBy_append hv, ← h1, takeWhile_dropWhile_append]

theorem tryMatch3_consumes {fsx : List Char → Bool} {skillDir s g0 rep rest : List Char}
    (h : tryMatch3 fsx skillDir s = some (g0, rep, rest)) : s = g0 ++ rest := by
  unfold tryMatch3 at h
  split at h
  case _ res hfs =>
    cases h
    exact firstSome_forall
      (fun t : List Char × List Char × List Char => s = t.1 ++ t.2.2)
      (fun _ _ ht => tryMdVerb_consumes ht) mdVerbs _ hfs
  case _ hfs =>
    have h1 := tryBracket_consumes h
    rw [← h1]
    rfl

/-- A scan over a text none of whose matches is live reproduces the text:
`re.sub` only ever attempts matches at suffixes of its input, and every
successful match emits its own matched text back. -/
theorem subScanAux_id_of_noRewrite
    {f : List Char → Option (List Char × List Char × List Char)}
    (hcons : ∀ s g0 rep rest, f s = some (g0, rep, rest) → s = g0 ++ rest)
    {t : List Char} (hnr : NoRewrite f t) :
    ∀ fuel u, List.IsSuffix u t → subScanAux f fuel u = u := by
  intro fuel
  induction fuel with
  | zero => intro u _; rfl
  | succ n ih =>
    intro u hu
    cases u with
    | nil => rfl
    | cons c cs =>
      simp only [subScanAux]
      cases hm : f (c :: cs) with
      | none =>
        dsimp only
        rw [ih cs ((List.suffix_cons c cs).trans hu)]
      | some tr =>
        obtain ⟨g0, rep, rest⟩ := tr
        have he := hcons _ _ _ _ hm
        have hr := hnr _ _ _ _ hu hm
        have hrest : List.IsSuffix rest (c :: cs) := ⟨g0, he.symm⟩
        dsimp only
        rw [hr, ih rest (hrest.trans hu), ← he]

theorem pySub_id_of_noRewrite
    {f : List Char → Option (List Char × List Char × List Char)}
    (hcons : ∀ s g0 rep rest, f s = some (g0, rep, rest) → s = g0 ++ rest)
    {t : List Char} (hnr : NoRewrite f t) : pySub f t = t :=
  subScanAux_id_of_noRewrite hcons hnr t.length t (List.suffix_refl t)

/-- Transfer from the executable suffix-by-suffix check to `NoRewrite`. -/
theorem noRewrite_of_b (f : List Char → Option (List Char × List Char × List Char))
    (t : List Char) (h : noRewriteB f t = true) : NoRewrite f t := by
  intro u g0 rep rest hu hm
  have hmem : u ∈ t.tails := (List.mem_tails u t).mpr hu
  have := (List.all_eq_true.mp h) u hmem
  rw [hm] at this
  exact of_decide_eq_true this

/-! ## Supporting lemmas: catalog (dict) semantics -/

theorem dictGet_insert (d : Dict) (k0 k : Yaml) (v : Skill) :
    dictGet (dictInsert d k0 v) k = if k0 = k then some v else dictGet d k := by
  induction d with
  | nil => simp [dictInsert, dictGet]
  | cons kv rest ih =>
    by_cases h0 : kv.1 = k0
    · subst h0
      simp only [dictInsert, if_pos rfl, dictGet]
      by_cases hk : kv.1 = k
      · simp [hk]
      · simp [hk]
    · simp only [dictInsert, if_neg h0, dictGet]
      rw [ih]
      by_cases hk : kv.1 = k
      · have hk0 : k0 ≠ k := fun hc => h0 (by rw [hk, hc])
        simp [hk, hk0]
      · simp [hk]

theorem dictKeys_insert (d : Dict) (k : Yaml) (v : Skill) :
    dictKeys (dictInsert d k v) = if k ∈ dictKeys d then dictKeys d else dictKeys d ++ [k] := by
  induction d with
  | nil => simp [dictInsert, dictKeys]
  | cons kv rest ih =>
    by_cases h0 : kv.1 = k
    · subst h0
      simp [dictInsert, dictKeys]
    · simp only [dictInsert, if_neg h0]
      have hne : ¬ k = kv.1 := fun hc => h0 hc.symm
      have hkeys : dictKeys (kv :: dictInsert rest k v) = kv.1 :: dictKeys (dictInsert rest k v) := rfl
      have hkeys2 : dictKeys (kv :: rest) = kv.1 :: dictKeys rest := rfl
      rw [hkeys, ih, hkeys2]
      by_cases hk : k ∈ dictKeys rest
      · simp [hk, hne]
      · simp [hk, hne]

theorem dictGet_foldl (skills : List Skill) : ∀ (d : Dict) (k : Yaml),
    dictGet (skills.foldl (fun d2 s => dictInsert d2 s.name s) d) k
      = match findLast skills k with
        | some t => some t
        | none => dictGet d k := by
  induction skills with
  | nil => intro d k; rfl
  | cons s rest ih =>
    intro d k
    simp only [List.foldl_cons, findLast]
    rw [ih]
    cases hf : findLast rest k with
    | some t => rfl
    | none =>
      dsimp only
      rw [dictGet_insert]
      by_cases hn : s.name = k <;> simp [hn]

theorem dictKeys_foldl (skills : List Skill) : ∀ d : Dict,
    dictKeys (skills.foldl (fun d2 s => dictInsert d2 s.name s) d)
      = (skills.map (fun s => s.name)).foldl keyStep (dictKeys d) := by
  induction skills with
  | nil => intro d; rfl
  | cons s rest ih =>
    intro d
    simp only [List.foldl_cons, List.map_cons]
    rw [ih, dictKeys_insert]
    rfl

theorem foldl_keyStep_nodup (names : List Yaml) : ∀ acc : List Yaml,
    acc.Nodup → (names.foldl keyStep acc).Nodup := by
  induction names with
  | nil => intro acc h; exact h
  | cons n ns ih =>
    intro acc h
    simp only [List.foldl_cons]
    apply ih
    unfold keyStep
    split
    · exact h
    · next hmem => simp [List.nodup_append, h, hmem]

theorem foldl_keyStep_of_nodup (names : List Yaml) : ∀ acc : List Yaml,
    names.Nodup → (∀ n ∈ names, n ∉ acc) → names.foldl keyStep acc = acc ++ names := by
  induction names with
  | nil => intro acc _ _; simp
  | cons n ns ih =>
    intro acc hnd hdis
    have hn : n ∉ acc := hdis n (by simp)
    simp only [List.foldl_cons]
    rw [show keyStep acc n = acc ++ [n] from by simp [keyStep, hn]]
    rw [ih (acc ++ [n]) (List.nodup_cons.mp hnd).2 ?_]
    · simp
    · intro m hm
      simp only [List.mem_append, List.mem_singleton]
      rintro (hc | hc)
      · exact hdis m (by simp [hm]) hc
      · subst hc; exact (List.nodup_cons.mp hnd).1 hm

/-- When every parsed skill's name is hashable, a discovery pass never raises:
it returns the parsed skills in order and indexes them one by one. -/
theorem discoverGo_ok (fsx : List Char → Bool) (yp : List Char → Except (List Char) Yaml) :
    ∀ (docs : List (List Char × List Char)) (acc : List Skill) (d : Dict),
      (∀ s ∈ parsedOf fsx yp docs, pyHashable s.name = true) →
      discoverGo fsx yp docs acc d =
        .ok (acc ++ parsedOf fsx yp docs,
          (parsedOf fsx yp docs).foldl (fun d2 s => dictInsert d2 s.name s) d) := by
  intro docs
  induction docs with
  | nil => intro acc d _; simp [discoverGo, parsedOf]
  | cons doc rest ih =>
    intro acc d hh
    have hgoal := hh
    simp only [discoverGo]
    cases hl : load_skill fsx yp doc.1 doc.2 with
    | none =>
      have hp : parsedOf fsx yp (doc :: rest) = parsedOf fsx yp rest := by
        simp [parsedOf, List.filterMap_cons, hl]
      rw [hp] at hgoal
      dsimp only
      rw [ih acc d hgoal, hp]
    | some s =>
      have hp : parsedOf fsx yp (doc :: rest) = s :: parsedOf fsx yp rest := by
        simp [parsedOf, List.filterMap_cons, hl]
      have hhs : pyHashable s.name = true := by
        apply hh
        rw [hp]
        simp
      have hrest : ∀ t ∈ parsedOf fsx yp rest, pyHashable t.name = true := by
        intro t ht
        apply hh
        rw [hp]
        simp [ht]
      dsimp only
      rw [if_pos hhs, ih (acc ++ [s]) (dictInsert d s.name s) hrest, hp]
      simp

theorem discover_skills_ok (fsx : List Char → Bool) (yp : List Char → Except (List Char) Yaml)
    (docs : List (List Char × List Char))
    (hh : ∀ s ∈ parsedOf fsx yp docs, pyHashable s.name = true) :
    discover_skills fsx yp docs =
      .ok (parsedOf fsx yp docs,
        (parsedOf fsx yp docs).foldl (fun d2 s => dictInsert d2 s.name s) []) := by
  unfold discover_skills
  rw [discoverGo_ok fsx yp docs [] [] hh]
  simp

theorem filterMap_length_add {α β : Type} (f : α → Option β) (l : List α) :
    (l.filterMap f).length + (l.filter (fun x => (f x).isNone)).length = l.length := by
  induction l with
  | nil => rfl
  | cons x xs ih =>
    simp only [List.filterMap_cons, List.filter_cons]
    cases hx : f x with
    | none => simp only [hx, Option.isNone_none]; simp [List.length_cons, ← ih]; omega
    | some b =>
      simp only [hx, Option.isNone_some]
      simp [List.length_cons, ← ih]
      omega

/-! ## Supporting lemmas: the frontmatter regex -/

theorem matchesBy_beq_take : ∀ p s : List Char,
    matchesBy (fun a b => a == b) p s = true → s.take p.length = p
  | [], _, _ => by simp
  | _ :: _, [], h => by simp [matchesBy] at h
  | p :: ps, c :: cs, h => by
    simp only [matchesBy, Bool.and_eq_true, beq_iff_eq] at h
    simp only [List.length_cons, List.take_succ_cons, List.cons.injEq]
    exact ⟨h.1.symm, matchesBy_beq_take ps cs h.2⟩

theorem exactStrip_parts {p s : List Char} {mr : List Char × List Char}
    (h : exactStrip p s = some mr) : mr.1 = p ∧ s = p ++ mr.2 := by
  unfold exactStrip stripBy at h
  split at h
  next hm =>
    simp only [Option.some.injEq] at h
    have ht := matchesBy_beq_take _ _ hm
    constructor
    · rw [← h]; exact ht
    · rw [← h]
      show s = p ++ s.drop p.length
      conv_lhs => rw [← List.take_append_drop p.length s]
      rw [ht]
  next => simp at h

theorem findDelim_some : ∀ {s : List Char} {pr : List Char × List Char},
    findDelim s = some pr → s = pr.1 ++ (fmDelim ++ pr.2) := by
  intro s
  induction s with
  | nil => intro pr h; simp [findDelim] at h
  | cons c cs ih =>
    intro pr h
    simp only [findDelim] at h
    cases he : exactStrip fmDelim (c :: cs) with
    | some mr =>
      rw [he] at h
      simp only [Option.some.injEq] at h
      obtain ⟨hm1, hm2⟩ := exactStrip_parts he
      rw [← h]
      simpa using hm2
    | none =>
      rw [he] at h
      simp only [Option.map_eq_some'] at h
      obtain ⟨pr2, hd, hpr⟩ := h
      rw [← hpr]
      have := ih hd
      simp only [List.cons_append]
      rw [← this]

theorem frontmatterSplit_some_decomp {content : List Char} {pr : List Char × List Char}
    (h : frontmatterSplit content = some pr) :
    content = fmOpen ++ (pr.1 ++ (fmDelim ++ pr.2)) := by
  unfold frontmatterSplit at h
  cases he : exactStrip fmOpen content with
  | none => rw [he] at h; simp at h
  | some mr =>
    rw [he] at h
    dsimp only at h
    obtain ⟨hm1, hm2⟩ := exactStrip_parts he
    rw [hm2, findDelim_some h]

/-! ## Supporting lemmas: string joins -/

theorem joinSep_cons_cons (sep x y : List Char) (rest : List (List Char)) :
    joinSep sep (x :: y :: rest) = x ++ (sep ++ joinSep sep (y :: rest)) := rfl

theorem mem_joinSep_infix (sep : List Char) : ∀ (ss : List (List Char)) (s : List Char),
    s ∈ ss → List.IsInfix s (joinSep sep ss) := by
  intro ss
  induction ss with
  | nil => intro s hs; simp at hs
  | cons x rest ih =>
    intro s hs
    cases rest with
    | nil =>
      simp only [List.mem_singleton] at hs
      subst hs
      exact List.infix_refl _
    | cons y t =>
      rw [joinSep_cons_cons]
      rcases List.mem_cons.mp hs with hx | hx
      · subst hx
        exact (List.prefix_append s (sep ++ joinSep sep (y :: t))).isInfix
      · have hsuf : List.IsSuffix (joinSep sep (y :: t)) (x ++ (sep ++ joinSep sep (y :: t))) := by
          rw [← List.append_assoc]
          exact List.suffix_append ..
        exact (ih s hx).trans hsuf.isInfix

/-! ## Claim theorems -/

/-- C1: the Reference Rewriter rewrites a reference only when it both matches
one of the three recognized patterns and resolves to an existing path under
the skill directory.  Each replacement function returns the matched text
`match.group(0)` unchanged whenever the target path does not exist, and when
no candidate path exists at all the rewriter returns every body text
byte-identical (all text outside matches is always passed through by
`re.sub`). -/
theorem c1_nonexistent_targets_left_unmodified :
    (∀ skillDir content, process_skill_paths noFs skillDir content = content) ∧
    (∀ fsx skillDir pre rel, fsx (pyJoin skillDir rel) = false →
      replace_dir_path fsx skillDir pre rel = pre ++ rel) ∧
    (∀ fsx skillDir g0 verb filename suffixT, fsx (pyJoin skillDir filename) = false →
      replace_doc_path fsx skillDir g0 verb filename suffixT = g0) ∧
    (∀ fsx skillDir g0 preVerb ltext fpath,
      fsx (pyJoin skillDir (if fpath.take 2 = ['.', '/'] then fpath.drop 2 else fpath)) = false →
      replace_markdown_link fsx skillDir g0 preVerb ltext fpath = g0) := by
  refine ⟨process_skill_paths_noFs, ?_, ?_, ?_⟩
  · intro fsx skillDir pre rel h
    simp [replace_dir_path, h]
  · intro fsx skillDir g0 verb filename suffixT h
    simp [replace_doc_path, h]
  · intro fsx skillDir g0 preVerb ltext fpath h
    simp only [replace_markdown_link]
    rw [h]
    simp

/-- Witness for C1 at concrete inputs: a body full of pattern-shaped text is
returned untouched when nothing exists, and each replacement function returns
its `match.group(0)` for a non-existing target. -/
theorem c1_witness :
    process_skill_paths noFs "d".data "see notes.md, check `scripts/x.py` [t](a.md)".data
        = "see notes.md, check `scripts/x.py` [t](a.md)".data ∧
    replace_dir_path noFs "d".data "`".data "scripts/x.py".data
        = "`".data ++ "scripts/x.py".data ∧
    replace_doc_path noFs "d".data "see notes.md,".data "see".data "notes.md".data [',']
        = "see notes.md,".data ∧
    replace_markdown_link noFs "d".data "[t](./a.md)".data [] "t".data "./a.md".data
        = "[t](./a.md)".data :=
  ⟨c1_nonexistent_targets_left_unmodified.1 _ _,
    c1_nonexistent_targets_left_unmodified.2.1 noFs _ _ _ rfl,
    c1_nonexistent_targets_left_unmodified.2.2.1 noFs _ _ _ _ _ rfl,
    c1_nonexistent_targets_left_unmodified.2.2.2 noFs _ _ _ _ _ rfl⟩

/-- C3 counterexample: the Rewriter is not idempotent.  On skill directory
`see b.md x` (whose name contains a pattern-2 phrase) with existing files
`a.md` and `b.md`, the first pass rewrites `read a.md.` to an output whose
inserted absolute path contains `see b.md `, and a second pass rewrites
inside that inserted path, changing the text again. -/
theorem c3_counterexample :
    process_skill_paths cexFs cexDir (process_skill_paths cexFs cexDir cexBody)
      ≠ process_skill_paths cexFs cexDir cexBody := by decide

/-- C3 (amended): re-running the Reference Rewriter on its own output leaves
the text unchanged provided the once-rewritten output contains no further
live pattern match — at every scan position of that output, a match of any of
the three patterns replaces itself verbatim, which is what each replacement
function returns exactly when the match's resolved target path does not
exist.  This holds for an arbitrary filesystem, including runs where the
first application performed rewrites.  Unconditional idempotence fails: see
the counterexample, where an inserted absolute path itself contains a live
reference phrase. -/
theorem c3_amended_idempotent_without_live_matches (fsx : List Char → Bool)
    (skillDir content : List Char)
    (h1 : NoRewrite (tryMatch1 fsx skillDir) (process_skill_paths fsx skillDir content))
    (h2 : NoRewrite (tryMatch2 fsx skillDir) (process_skill_paths fsx skillDir content))
    (h3 : NoRewrite (tryMatch3 fsx skillDir) (process_skill_paths fsx skillDir content)) :
    process_skill_paths fsx skillDir (process_skill_paths fsx skillDir content)
      = process_skill_paths fsx skillDir content := by
  show pySub (tryMatch3 fsx skillDir)
      (pySub (tryMatch2 fsx skillDir)
        (pySub (tryMatch1 fsx skillDir) (process_skill_paths fsx skillDir content)))
    = process_skill_paths fsx skillDir content
  rw [pySub_id_of_noRewrite (fun _ _ _ _ h => tryMatch1_consumes h) h1,
    pySub_id_of_noRewrite (fun _ _ _ _ h => tryMatch2_consumes h) h2,
    pySub_id_of_noRewrite (fun _ _ _ _ h => tryMatch3_consumes h) h3]

/-- Witness for C3 (amended) at a run with a real rewrite: on directory `D`
containing `a.md`, the first pass rewrites `read a.md.`; the rewritten output
has no further live match, and a second application leaves it unchanged. -/
theorem c3_amended_witness :
    process_skill_paths c3wFs c3wDir (process_skill_paths c3wFs c3wDir c3wBody)
        = process_skill_paths c3wFs c3wDir c3wBody ∧
    process_skill_paths c3wFs c3wDir c3wBody ≠ c3wBody :=
  ⟨c3_amended_idempotent_without_live_matches c3wFs c3wDir c3wBody
      (noRewrite_of_b _ _ (by decide)) (noRewrite_of_b _ _ (by decide))
      (noRewrite_of_b _ _ (by decide)),
    by decide⟩

/-- C4 counterexample: a discovery pass over N = 2 documents, M = 0 of them
malformed, both declaring name `x`: discovery returns 2 Skills but `list()`
afterwards has length 1 ≠ N − M, because the index holds one entry per
distinct name. -/
theorem c4_counterexample :
    (discover_skills noFs c4yp c4docs).toOption.map
        (fun r => (r.1.length, (list_skills r.2).length)) = some (2, 1) := by decide

/-- C4 (amended): when every parsed name is hashable, a discovery pass over N
documents of which M are malformed returns exactly the N − M successfully
parsed Skills without aborting, and `list()` afterwards has one entry per
distinct parsed name — equal to N − M when the parsed names are pairwise
distinct (with duplicate names it is strictly smaller). -/
theorem c4_amended_discovery_counts (fsx : List Char → Bool)
    (yp : List Char → Except (List Char) Yaml) (docs : List (List Char × List Char))
    (hh : ∀ s ∈ parsedOf fsx yp docs, pyHashable s.name = true) :
    discover_skills fsx yp docs =
        .ok (parsedOf fsx yp docs,
          (parsedOf fsx yp docs).foldl (fun d2 s => dictInsert d2 s.name s) []) ∧
    (parsedOf fsx yp docs).length
        + (docs.filter (fun doc => (load_skill fsx yp doc.1 doc.2).isNone)).length
        = docs.length ∧
    (((parsedOf fsx yp docs).map (fun s => s.name)).Nodup →
      (list_skills ((parsedOf fsx yp docs).foldl (fun d2 s => dictInsert d2 s.name s) [])).length
        = (parsedOf fsx yp docs).length) := by
  refine ⟨discover_skills_ok fsx yp docs hh, filterMap_length_add _ docs, ?_⟩
  intro hnd
  have hkeys : list_skills ((parsedOf fsx yp docs).foldl (fun d2 s => dictInsert d2 s.name s) [])
      = firstKeys ((parsedOf fsx yp docs).map (fun s => s.name)) := by
    unfold list_skills firstKeys
    rw [dictKeys_foldl]
    rfl
  rw [hkeys, firstKeys, foldl_keyStep_of_nodup _ [] hnd (by simp)]
  simp

/-- Witness for C4 (amended) at a concrete pass: N = 3 documents, M = 1
malformed, distinct parsed names — 2 Skills, `list()` length 2. -/
theorem c4_amended_witness :
    (discover_skills noFs c4wyp c4wdocs =
        .ok (parsedOf noFs c4wyp c4wdocs,
          (parsedOf noFs c4wyp c4wdocs).foldl (fun d2 s => dictInsert d2 s.name s) [])) ∧
    (list_skills ((parsedOf noFs c4wyp c4wdocs).foldl (fun d2 s => dictInsert d2 s.name s) [])).length
        = (parsedOf noFs c4wyp c4wdocs).length ∧
    (parsedOf noFs c4wyp c4wdocs).length = 2 :=
  ⟨(c4_amended_discovery_counts noFs c4wyp c4wdocs (by decide)).1,
    (c4_amended_discovery_counts noFs c4wyp c4wdocs (by decide)).2.2 (by decide),
    by decide⟩

/-- C5: after a discovery pass (which never raises when parsed names are
hashable), `get(name)` returns exactly the last successfully parsed Skill
declaring that name — the later-discovered document wins wholesale, with no
fields merged, and at most one Skill is indexed per name. -/
theorem c5_duplicate_names_last_wins (fsx : List Char → Bool)
    (yp : List Char → Except (List Char) Yaml) (docs : List (List Char × List Char))
    (n : List Char)
    (hh : ∀ s ∈ parsedOf fsx yp docs, pyHashable s.name = true) :
    (discover_skills fsx yp docs).toOption.map (fun r => get_skill r.2 n)
      = some (findLast (parsedOf fsx yp docs) (Yaml.str n)) := by
  rw [discover_skills_ok fsx yp docs hh]
  unfold Except.toOption
  simp only [Option.map_some', Option.some.injEq]
  unfold get_skill
  rw [dictGet_foldl]
  cases hf : findLast (parsedOf fsx yp docs) (Yaml.str n) <;> simp [dictGet]

/-- Witness for C5: on two same-name documents, `get("x")` is the Skill of the
later document (description `d2`, body `b2`), untouched by the earlier one. -/
theorem c5_witness :
    (discover_skills noFs c5yp c5docs).toOption.map (fun r => get_skill r.2 "x".data)
        = some (findLast (parsedOf noFs c5yp c5docs) (Yaml.str "x".data)) ∧
    findLast (parsedOf noFs c5yp c5docs) (Yaml.str "x".data)
        = some ⟨.str "x".data, .str "d2".data, "b2".data, none, none, none, some "p2".data⟩ :=
  ⟨c5_duplicate_names_last_wins noFs c5yp c5docs "x".data (by decide), by decide⟩

/-- C10: after a discovery pass, `list()` holds each indexed name exactly once
(`Nodup`), in first-discovery order (`firstKeys` keeps a re-discovered name at
its original position instead of appending or moving it), while `get(name)`
still returns the later-discovered Skill. -/
theorem c10_names_unique_first_position (fsx : List Char → Bool)
    (yp : List Char → Except (List Char) Yaml) (docs : List (List Char × List Char))
    (hh : ∀ s ∈ parsedOf fsx yp docs, pyHashable s.name = true) :
    (discover_skills fsx yp docs).toOption.map (fun r => list_skills r.2)
        = some (firstKeys ((parsedOf fsx yp docs).map (fun s => s.name))) ∧
    (firstKeys ((parsedOf fsx yp docs).map (fun s => s.name))).Nodup ∧
    (∀ n, (discover_skills fsx yp docs).toOption.map (fun r => get_skill r.2 n)
        = some (findLast (parsedOf fsx yp docs) (Yaml.str n))) := by
  refine ⟨?_, foldl_keyStep_nodup _ [] (by simp), ?_⟩
  · rw [discover_skills_ok fsx yp docs hh]
    unfold Except.toOption
    simp only [Option.map_some', Option.some.injEq]
    unfold list_skills firstKeys
    rw [dictKeys_foldl]
    rfl
  · intro n
    rw [discover_skills_ok fsx yp docs hh]
    unfold Except.toOption
    simp only [Option.map_some', Option.some.injEq]
    unfold get_skill
    rw [dictGet_foldl]
    cases hf : findLast (parsedOf fsx yp docs) (Yaml.str n) <;> simp [dictGet]

/-- C2 counterexample: a document whose header carries an empty `name` is NOT
rejected — the source only checks key presence, so a Skill with an empty name
is produced. -/
theorem c2_counterexample :
    load_skill noFs c2yp "p".data c2doc
      = some ⟨.str [], .str "d".data, "body".data, none, none, none, some "p".data⟩ := by
  decide

/-- C2 (amended): parsing fails with `MissingRequiredField` exactly when the
`name` or `description` KEY is absent from the header mapping; presence is all
that is validated — with both keys present the parser builds the Skill from
the header values verbatim (empty or not). -/
theorem c2_amended_presence_only_validation (fsx : List Char → Bool)
    (yp : List Char → Except (List Char) Yaml) (skillPath content fmText rawBody : List Char)
    (kvs : List (List Char × Yaml))
    (hsplit : frontmatterSplit content = some (fmText, rawBody))
    (hyaml : yp fmText = .ok (.map kvs)) :
    ((mapLookup kvs "name".data = none ∨ mapLookup kvs "description".data = none) →
      load_skill_body fsx yp skillPath content = .ok .missingRequired ∧
        load_skill fsx yp skillPath content = none) ∧
    (∀ nv dv, mapLookup kvs "name".data = some nv → mapLookup kvs "description".data = some dv →
      load_skill_body fsx yp skillPath content = .ok (.ok
          ⟨nv, dv, process_skill_paths fsx (parentDir skillPath) (pyStrip rawBody),
            mapLookup kvs "license".data, mapLookup kvs "allowed-tools".data,
            mapLookup kvs "metadata".data, some skillPath⟩) ∧
        load_skill fsx yp skillPath content = some
          ⟨nv, dv, process_skill_paths fsx (parentDir skillPath) (pyStrip rawBody),
            mapLookup kvs "license".data, mapLookup kvs "allowed-tools".data,
            mapLookup kvs "metadata".data, some skillPath⟩) := by
  constructor
  · intro hmiss
    have hb : load_skill_body fsx yp skillPath content = .ok .missingRequired := by
      rcases hmiss with hm | hm
      · simp [load_skill_body, hsplit, hyaml, pyContains, hm, bind, Except.bind,
          pure, Except.pure]
      · cases hn : mapLookup kvs "name".data with
        | none => simp [load_skill_body, hsplit, hyaml, pyContains, hn, bind, Except.bind,
            pure, Except.pure]
        | some nv =>
          simp [load_skill_body, hsplit, hyaml, pyContains, hn, hm, bind, Except.bind,
            pure, Except.pure]
    exact ⟨hb, by simp [load_skill, hb]⟩
  · intro nv dv hn hd
    have hb : load_skill_body fsx yp skillPath content = .ok (.ok
        ⟨nv, dv, process_skill_paths fsx (parentDir skillPath) (pyStrip rawBody),
          mapLookup kvs "license".data, mapLookup kvs "allowed-tools".data,
          mapLookup kvs "metadata".data, some skillPath⟩) := by
      simp [load_skill_body, hsplit, hyaml, pyContains, pySubscript, pyGet, hn, hd,
        bind, Except.bind, pure, Except.pure]
    exact ⟨hb, by simp [load_skill, hb]⟩

/-- Witness for C2 (amended): a missing `description` key yields
`MissingRequiredField`/`None`; a present-but-empty `name` yields a Skill. -/
theorem c2_amended_witness :
    (load_skill_body noFs c2wyp "p".data c2doc = .ok .missingRequired ∧
      load_skill noFs c2wyp "p".data c2doc = none) ∧
    (load_skill_body noFs c2yp "p".data c2doc = .ok (.ok
        ⟨.str [], .str "d".data, process_skill_paths noFs (parentDir "p".data) (pyStrip "body".data),
          mapLookup [("name".data, Yaml.str []), ("description".data, Yaml.str "d".data)] "license".data,
          mapLookup [("name".data, Yaml.str []), ("description".data, Yaml.str "d".data)] "allowed-tools".data,
          mapLookup [("name".data, Yaml.str []), ("description".data, Yaml.str "d".data)] "metadata".data,
          some "p".data⟩) ∧
      load_skill noFs c2yp "p".data c2doc = some
        ⟨.str [], .str "d".data, process_skill_paths noFs (parentDir "p".data) (pyStrip "body".data),
          mapLookup [("name".data, Yaml.str []), ("description".data, Yaml.str "d".data)] "license".data,
          mapLookup [("name".data, Yaml.str []), ("description".data, Yaml.str "d".data)] "allowed-tools".data,
          mapLookup [("name".data, Yaml.str []), ("description".data, Yaml.str "d".data)] "metadata".data,
          some "p".data⟩) :=
  ⟨(c2_amended_presence_only_validation noFs c2wyp "p".data c2doc "h".data "body".data
      [("name".data, Yaml.str "x".data)] (by decide) (by decide)).1 (Or.inr (by decide)),
    (c2_amended_presence_only_validation noFs c2yp "p".data c2doc "h".data "body".data
      [("name".data, Yaml.str []), ("description".data, Yaml.str "d".data)]
      (by decide) (by decide)).2 (Yaml.str []) (Yaml.str "d".data) (by decide) (by decide)⟩

/-- C6: a document that does not open with a `---`-delimited header block —
i.e. is not of the shape `---\n` + header + `\n---\n` + body for ANY header
and body — makes parsing fail with the missing-header outcome and produce no
Skill. -/
theorem c6_missing_header_block (fsx : List Char → Bool)
    (yp : List Char → Except (List Char) Yaml) (skillPath content : List Char)
    (h : ∀ fm body, content ≠ fmOpen ++ (fm ++ (fmDelim ++ body))) :
    load_skill_body fsx yp skillPath content = .ok .missingFrontmatter ∧
    load_skill fsx yp skillPath content = none := by
  have hnone : frontmatterSplit content = none := by
    cases hs : frontmatterSplit content with
    | none => rfl
    | some pr => exact absurd (frontmatterSplit_some_decomp hs) (h pr.1 pr.2)
  constructor
  · simp [load_skill_body, hnone, pure, Except.pure]
  · simp [load_skill, load_skill_body, hnone, pure, Except.pure]

/-- Witness for C6: `hello` has no frontmatter block. -/
theorem c6_witness :
    load_skill_body noFs (fun _ => .ok .null) "p".data "hello".data = .ok .missingFrontmatter ∧
    load_skill noFs (fun _ => .ok .null) "p".data "hello".data = none :=
  c6_missing_header_block noFs (fun _ => .ok .null) "p".data "hello".data (by
    intro fm body hc
    rw [show "hello".data = 'h' :: ['e', 'l', 'l', 'o'] from rfl,
      show fmOpen = '-' :: ['-', '-', '\n'] from rfl] at hc
    simp at hc)

/-- C7: the catch-all `except Exception` in `load_skill` stops every exception
the body raises (for any yaml-parser behaviour, any well-formedness of the
header value, any document): a raised exception surfaces as the reportable
`None` outcome, and a Skill is returned precisely when the body produced one —
parsing never propagates an uncaught exception. -/
theorem c7_exceptions_never_escape (fsx : List Char → Bool)
    (yp : List Char → Except (List Char) Yaml) (skillPath content : List Char) :
    (∀ e, load_skill_body fsx yp skillPath content = .error e →
      load_skill fsx yp skillPath content = none) ∧
    (∀ s, load_skill fsx yp skillPath content = some s →
      load_skill_body fsx yp skillPath content = .ok (.ok s)) := by
  constructor
  · intro e he
    unfold load_skill
    rw [he]
  · intro s hs
    unfold load_skill at hs
    split at hs
    · next s2 heq =>
      cases hs
      exact heq
    · simp at hs

/-- Witness for C7: an integer header raises `TypeError` inside the body and
`load_skill` still returns `None`. -/
theorem c7_witness :
    load_skill_body noFs c7yp "p".data c7doc = .error .typeError ∧
    load_skill noFs c7yp "p".data c7doc = none :=
  ⟨by decide,
    (c7_exceptions_never_escape noFs c7yp "p".data c7doc).1 .typeError (by decide)⟩

/-- C8 counterexample: on an empty catalog the summary view is the empty
string — it does not contain the instructional preamble, contradicting "for
every catalog" the output contains the fixed preamble. -/
theorem c8_counterexample :
    get_skills_metadata_prompt [] = [] ∧
    ¬ List.IsInfix "## Available Skills\n".data (get_skills_metadata_prompt []) := by
  refine ⟨rfl, ?_⟩
  decide

/-- C8 (amended): for every NON-EMPTY catalog the summary view is the fixed
instructional preamble followed by exactly one `- name: description` line per
indexed skill (an empty catalog yields the empty string, with no preamble);
the output reads only names and descriptions — replacing every skill's body
arbitrarily leaves it unchanged, so its size cannot depend on body sizes. -/
theorem c8_amended_summary_shape (d : Dict) :
    (d ≠ [] → get_skills_metadata_prompt d
      = metaPromptPreamble ++ joinSep ['\n'] (d.map (fun kv => skillLine kv.2))) ∧
    get_skills_metadata_prompt [] = [] ∧
    (∀ f : Yaml × Skill → List Char,
      get_skills_metadata_prompt (d.map (fun kv => (kv.1, setContent (f kv) kv.2)))
        = get_skills_metadata_prompt d) := by
  refine ⟨?_, rfl, ?_⟩
  · intro hne
    cases d with
    | nil => exact absurd rfl hne
    | cons kv rest =>
      unfold get_skills_metadata_prompt
      rw [if_neg (by simp)]
      simp only [metaPromptHeader, List.map_cons, List.cons_append, List.nil_append]
      rw [joinSep_cons_cons, joinSep_cons_cons, joinSep_cons_cons]
      rw [show metaPromptPreamble
          = "## Available Skills\n".data ++ ('\n' ::
            ("You have access to specialized skills. Each skill provides expert guidance for specific tasks.\n".data ++ ('\n' ::
              ("Load a skill\x27s full content using the appropriate skill tool when needed.\n".data ++ ['\n'])))) from by decide]
      simp [List.append_assoc]
  · intro f
    have hmap : ∀ l : Dict,
        (l.map (fun kv => (kv.1, setContent (f kv) kv.2))).map (fun kv2 => skillLine kv2.2)
          = l.map (fun kv2 => skillLine kv2.2) := by
      intro l
      induction l with
      | nil => rfl
      | cons a t ih =>
        simp only [List.map_cons]
        rw [ih]
        rfl
    cases d with
    | nil => rfl
    | cons kv rest =>
      unfold get_skills_metadata_prompt
      rw [if_neg (by simp), if_neg (by simp), hmap (kv :: rest)]

/-- Witness for C8 (amended): the concrete one-skill summary has the preamble
plus one line, and rewriting the body leaves the summary unchanged. -/
theorem c8_witness :
    get_skills_metadata_prompt c8d
        = metaPromptPreamble ++ joinSep ['\n'] (c8d.map (fun kv => skillLine kv.2)) ∧
    get_skills_metadata_prompt (c8d.map (fun kv => (kv.1, setContent "OTHER".data kv.2)))
        = get_skills_metadata_prompt c8d :=
  ⟨(c8_amended_summary_shape c8d).1 (by decide),
    (c8_amended_summary_shape c8d).2.2 (fun _ => "OTHER".data)⟩

/-- C9: for a name that is not indexed, `get` returns `None` (no fault) and
the Facade's `execute` returns a failed `ToolResult` (not a raised fault)
whose error message embeds the comma-joined list of all currently indexed
skill names; every indexed name occurs inside the message. -/
theorem c9_not_found_reports_names (d : Dict) (n : List Char) (ss : List (List Char))
    (hmiss : get_skill d n = none)
    (hss : mapStr? (list_skills d) = some ss) :
    executeGetSkill d n = .ok ⟨false, [], some (notFoundMsg n (joinSep ", ".data ss))⟩ ∧
    ∀ s ∈ ss, List.IsInfix s (notFoundMsg n (joinSep ", ".data ss)) := by
  constructor
  · unfold executeGetSkill
    rw [hmiss]
    dsimp only
    unfold pyJoinComma
    rw [hss]
  · intro s hs
    unfold notFoundMsg
    have hinf := mem_joinSep_infix ", ".data ss s hs
    have hsuf : List.IsSuffix (joinSep ", ".data ss)
        ("技能 \x27".data ++ (n ++ ("\x27 不存在。可用技能：".data ++ joinSep ", ".data ss))) := by
      rw [← List.append_assoc, ← List.append_assoc]
      exact List.suffix_append ..
    exact hinf.trans hsuf.isInfix

/-- Witness for C9: looking up the absent `gamma` returns a failed result
whose message joins `alpha, beta`, and `alpha` occurs in the message. -/
theorem c9_witness :
    executeGetSkill c9d "gamma".data
        = .ok ⟨false, [], some (notFoundMsg "gamma".data
            (joinSep ", ".data ["alpha".data, "beta".data]))⟩ ∧
    List.IsInfix "alpha".data (notFoundMsg "gamma".data
        (joinSep ", ".data ["alpha".data, "beta".data])) :=
  ⟨(c9_not_found_reports_names c9d "gamma".data ["alpha".data, "beta".data]
      (by decide) (by decide)).1,
    (c9_not_found_reports_names c9d "gamma".data ["alpha".data, "beta".data]
      (by decide) (by decide)).2 "alpha".data (by decide)⟩

/-- Witness for C10: names `x`, `y`, `x` — `list()` is `[x, y]` (the re-found
`x` keeps position 0) while `get("x")` is the third document's Skill. -/
theorem c10_witness :
    (discover_skills noFs c10yp c10docs).toOption.map (fun r => list_skills r.2)
        = some (firstKeys ((parsedOf noFs c10yp c10docs).map (fun s => s.name))) ∧
    firstKeys ((parsedOf noFs c10yp c10docs).map (fun s => s.name))
        = [Yaml.str "x".data, Yaml.str "y".data] ∧
    (discover_skills noFs c10yp c10docs).toOption.map (fun r => get_skill r.2 "x".data)
        = some (findLast (parsedOf noFs c10yp c10docs) (Yaml.str "x".data)) ∧
    findLast (parsedOf noFs c10yp c10docs) (Yaml.str "x".data)
        = some ⟨.str "x".data, .str "d3".data, "c3".data, none, none, none, some "p3".data⟩ :=
  ⟨(c10_names_unique_first_position noFs c10yp c10docs (by decide)).1, by decide,
    (c10_names_unique_first_position noFs c10yp c10docs (by decide)).2.2 "x".data, by decide⟩

end SkillsForge
